import Mathlib

/-!
# Verification of the repobatch core (discovery, filtering, execution)

Shallow embedding of `src/repobatch/models.py`, `src/repobatch/discovery.py`
and `src/repobatch/executor.py`.

Conventions of the embedding:
* Filesystem state is an explicit tree value (`DirNode`); `Path.exists` and
  `Path.iterdir` become total lookups on that tree, with a `readable` flag
  modelling `PermissionError` raised by `iterdir`.
* Child-process execution is external and nondeterministic, so one run of a
  subprocess is an oracle value `ProcOutcome` (completed with an exit code and
  captured streams, timed out, or an execution-layer exception); `run_command`
  is then a total function of that oracle, mirroring that the Python function
  catches every exception and always returns a `CommandResult`.
* The asyncio semaphore-bounded batch (`_run_batch_async`) is embedded as a
  labelled small-step relation `SchedStep` over scheduler states: tasks are
  indexed by submission position, a `start` step consumes a semaphore slot and
  a `finish` step releases it, and `asyncio.gather` collates results by task
  index (`gather`).
-/

/-- `Project` from `models.py`: a discovered project directory.  The `path`
is an absolute path, modelled as the list of directory names from the walk
root; `metadata` is the string-keyed map, modelled as an association list. -/
structure Project where
  path : List String
  name : String
  is_git : Bool := false
  is_python : Bool := false
  has_copier : Bool := false
  copier_version : Option String := none
  copier_template : Option String := none
  metadata : List (String × String) := []
deriving Repr, DecidableEq

instance : Inhabited Project := ⟨{ path := [], name := "" }⟩

/-- `CommandResult` from `models.py`: the outcome of one command execution. -/
structure CommandResult where
  project : Project
  success : Bool
  output : String
  error : String := ""
  exit_code : Int := 0
deriving Repr, DecidableEq

instance : Inhabited CommandResult :=
  ⟨{ project := default, success := false, output := "" }⟩

/-- `BatchResult` from `models.py`: ordered results plus summary counts. -/
structure BatchResult where
  results : List CommandResult
  total : Nat
  successful : Nat
  failed : Nat
deriving Repr, DecidableEq

/-- `BatchResult.from_results`: `successful = sum(1 for r in results if
r.success)`, `failed = len(results) - successful`. -/
def BatchResult.from_results (results : List CommandResult) : BatchResult :=
  let successful := (results.filter (fun r => r.success)).length
  let failed := results.length - successful
  { results := results
    total := results.length
    successful := successful
    failed := failed }

/-- Result of the `(self.path / has_file).exists()` check inside
`matches_filters`: the file exists, does not exist, or the check raises
`PermissionError`/`OSError` (caught and treated as a non-match). -/
inductive FileCheck where
  | present
  | absent
  | error
deriving Repr, DecidableEq

/-- Python truthiness of an optional string (`if name_pattern:`,
`if has_file:`): `None` and the empty string are falsy. -/
def strTruthy : Option String → Bool
  | none => false
  | some s => !s.isEmpty

/-- `Project.matches_filters` from `models.py`.  The calls out of the record
are passed as oracles: `fnmatch name pat` is `fnmatch.fnmatch(self.name,
name_pattern)` and `fileCheck f` is the outcome of `(self.path / f).exists()`.
Guards are translated in source order; `if name_pattern:` and `if has_file:`
use Python truthiness, so an empty string skips the check. -/
def Project.matches_filters (p : Project)
    (python_only non_python_only copier_only git_only : Bool)
    (name_pattern has_file : Option String)
    (fnmatch : String → String → Bool) (fileCheck : String → FileCheck) : Bool :=
  if python_only && !p.is_python then false
  else if non_python_only && p.is_python then false
  else if copier_only && !p.has_copier then false
  else if git_only && !p.is_git then false
  else if strTruthy name_pattern
      && !(fnmatch p.name (name_pattern.getD "")) then false
  else if strTruthy has_file then
    match fileCheck (has_file.getD "") with
    | .present => true
    | .absent => false
    | .error => false
  else true

/-- A command as passed to the executor: either a single shell-interpreted
string or an argument vector (`command: str | list[str]`). -/
inductive Command where
  | str (s : String)
  | argv (args : List String)
deriving Repr, DecidableEq

/-- One run of the external child process, as observed by `run_command`.
This is the oracle for everything outside the Python interpreter: the process
completed with an exit status and captured streams, `subprocess.run` raised
`TimeoutExpired` (resp. `asyncio.wait_for` raised `TimeoutError`), or some
other exception was raised (launch failure etc.), carrying `str(e)`. -/
inductive ProcOutcome where
  | completed (returncode : Int) (stdout stderr : String)
  | timedOut
  | raised (msg : String)
deriving Repr, DecidableEq

/-- Rendering of the `timeout` argument inside the f-string
`f"Command timed out after {timeout} seconds"`: Python prints `None` for the
null timeout. -/
def timeoutStr : Option Int → String
  | none => "None"
  | some t => toString t

/-- `run_command` from `executor.py`.  The `try` body and both `except` arms
are translated branch for branch; the function is total in the oracle, which
is exactly the contract that no exception escapes. -/
def run_command (project : Project) (command : Command) (shell : Bool)
    (timeout : Option Int) (capture_output : Bool)
    (proc : ProcOutcome) : CommandResult :=
  match proc with
  | .completed rc out err =>
      { project := project
        success := rc == 0
        output := if capture_output then out else ""
        error := if capture_output then err else ""
        exit_code := rc }
  | .timedOut =>
      { project := project
        success := false
        output := ""
        error := "Command timed out after " ++ timeoutStr timeout ++ " seconds"
        exit_code := -1 }
  | .raised msg =>
      { project := project
        success := false
        output := ""
        error := msg
        exit_code := -1 }

/-- Python `or` on an integer left operand: `a or b` is `b` when `a` is the
falsy `0`, else `a` (used in `exit_code=proc.returncode or 0`). -/
def pyIntOr (a b : Int) : Int := if a == 0 then b else a

/-- `_run_command_async` from `executor.py`.  Same oracle shape as
`run_command`; the completed branch mirrors
`stdout.decode() if capture_output and stdout else ""` (empty captured bytes
are falsy) and `exit_code=proc.returncode or 0`. -/
def run_command_async (project : Project) (command : Command) (shell : Bool)
    (timeout : Option Int) (capture_output : Bool)
    (proc : ProcOutcome) : CommandResult :=
  match proc with
  | .completed rc out err =>
      { project := project
        success := rc == 0
        output := if capture_output && !out.isEmpty then out else ""
        error := if capture_output && !err.isEmpty then err else ""
        exit_code := pyIntOr rc 0 }
  | .timedOut =>
      { project := project
        success := false
        output := ""
        error := "Command timed out after " ++ timeoutStr timeout ++ " seconds"
        exit_code := -1 }
  | .raised msg =>
      { project := project
        success := false
        output := ""
        error := msg
        exit_code := -1 }

/-- The sequential loop of `run_batch` (the `parallel=False` path): run the
command in each project in input order, appending each result; after
appending, `if not continue_on_error and not result.success: break`.
The per-project process behaviour is the oracle `env`. -/
def run_batch_seq (command : Command) (shell : Bool) (timeout : Option Int)
    (capture_output : Bool) (continue_on_error : Bool)
    (env : Project → ProcOutcome) : List Project → List CommandResult
  | [] => []
  | p :: ps =>
    let r := run_command p command shell timeout capture_output (env p)
    if !continue_on_error && !r.success then [r]
    else r :: run_batch_seq command shell timeout capture_output
        continue_on_error env ps

/-- `run_batch` from `executor.py`, sequential mode: the loop above followed
by `BatchResult.from_results`. -/
def run_batch (command : Command) (shell : Bool) (timeout : Option Int)
    (capture_output : Bool) (continue_on_error : Bool)
    (env : Project → ProcOutcome) (projects : List Project) : BatchResult :=
  BatchResult.from_results
    (run_batch_seq command shell timeout capture_output continue_on_error
      env projects)

/-- Spec-side description of the stop-on-first-failure results list (written
from the words of the spec, for comparison with `run_batch_seq`): all
outcomes up to and including the first failing one. -/
def upToFirstFailure : List CommandResult → List CommandResult
  | [] => []
  | r :: rs => if r.success then r :: upToFirstFailure rs else [r]

/-- Demo project A, whose command will fail in `envAB`. -/
def projA : Project := { path := ["a"], name := "A" }

/-- Demo project B, whose command will succeed in `envAB`. -/
def projB : Project := { path := ["b"], name := "B" }

/-- Demo process environment: the command exits with status 1 in project A
and with status 0 in every other project. -/
def envAB : Project → ProcOutcome := fun p =>
  if p.name == "A" then .completed 1 "" "" else .completed 0 "" ""

/-- Phase of one submitted unit of work of `_run_batch_async`: a task is
created per project (pending), `_run_with_semaphore` acquires a slot and
spawns the child process (running), and the process completes, releasing the
slot and recording its `CommandResult` (done). -/
inductive TaskPhase where
  | pending
  | running
  | done (r : CommandResult)
deriving Repr, DecidableEq

/-- Is the task's child process currently in flight? -/
def TaskPhase.isRunning : TaskPhase → Bool
  | .running => true
  | _ => false

/-- Has the task completed? -/
def TaskPhase.isDone : TaskPhase → Bool
  | .done _ => true
  | _ => false

/-- Scheduler state of `_run_batch_async`: the free-slot count of
`asyncio.Semaphore(max_workers)` plus one task per project, indexed by
submission position. -/
structure SchedState where
  sem : Nat
  tasks : List TaskPhase
deriving Repr, DecidableEq

/-- Label of a scheduler step: which task starts or finishes. -/
inductive SchedLabel where
  | start (i : Nat)
  | finish (i : Nat)
deriving Repr, DecidableEq

/-- Small-step semantics of the semaphore-bounded fan-out.  `exec i` is the
`CommandResult` that task `i` produces when its process completes (the
outcome of `_run_command_async` for project `i`).  A pending task may start
only when a semaphore slot is free (`async with semaphore`); a running task
may finish at any time, in any order, releasing its slot. -/
inductive SchedStep (exec : Nat → CommandResult) :
    SchedState → SchedLabel → SchedState → Prop where
  | start (s : SchedState) (i : Nat) (hp : s.tasks[i]? = some .pending)
      (hsem : 0 < s.sem) :
      SchedStep exec s (.start i) ⟨s.sem - 1, s.tasks.set i .running⟩
  | finish (s : SchedState) (i : Nat) (hr : s.tasks[i]? = some .running) :
      SchedStep exec s (.finish i)
        ⟨s.sem + 1, s.tasks.set i (.done (exec i))⟩

/-- Initial scheduler state: `max_workers = N` free slots, `n` pending
tasks. -/
def initState (N n : Nat) : SchedState :=
  ⟨N, List.replicate n .pending⟩

/-- Reachability under any interleaving of scheduler steps. -/
def Reach (exec : Nat → CommandResult) : SchedState → SchedState → Prop :=
  Relation.ReflTransGen (fun s s' => ∃ l, SchedStep exec s l s')

/-- Number of child processes currently in flight. -/
def runningCount (ts : List TaskPhase) : Nat :=
  ts.countP TaskPhase.isRunning

/-- `asyncio.gather` collation: the completed results in task (submission)
order. -/
def gather (ts : List TaskPhase) : List CommandResult :=
  ts.filterMap (fun t => match t with | .done r => some r | _ => none)

/-- The per-task result function of `_run_batch_async`: task `i` runs
`_run_command_async` in the `i`-th project with that run's process
behaviour `env i`. -/
def batchExec (projects : List Project) (command : Command) (shell : Bool)
    (timeout : Option Int) (capture_output : Bool) (env : Nat → ProcOutcome)
    (i : Nat) : CommandResult :=
  run_command_async (projects.getD i default) command shell timeout
    capture_output (env i)

/-- A directory of the modelled filesystem: its base name, the names of the
plain files directly inside it, its subdirectories, and whether listing it
succeeds (`readable = false` models `PermissionError` from `iterdir`). -/
inductive DirNode where
  | node (name : String) (files : List String) (subdirs : List DirNode)
      (readable : Bool)

/-- Base name of the directory. -/
def DirNode.name : DirNode → String
  | .node n _ _ _ => n

/-- Names of the plain files directly inside the directory. -/
def DirNode.files : DirNode → List String
  | .node _ f _ _ => f

/-- Subdirectories of the directory. -/
def DirNode.subdirs : DirNode → List DirNode
  | .node _ _ s _ => s

/-- Whether `iterdir` succeeds on the directory. -/
def DirNode.readable : DirNode → Bool
  | .node _ _ _ r => r

/-- The hidden-name pruning test `item.name.startswith(".")`, written as a
first-character check (equivalent for the one-character prefix `"."`). -/
def hiddenName (s : String) : Bool :=
  match s.data with
  | [] => false
  | ch :: _ => ch == '.'

/-- `(path / entry).exists()`: the directory contains a file or a
subdirectory of that name. -/
def dirHasEntry (d : DirNode) (entry : String) : Bool :=
  d.files.contains entry || d.subdirs.any (fun c => c.name == entry)

/-- The `project_markers` list of `_is_project_root` in `discovery.py`. -/
def project_markers : List String :=
  [".git", "pyproject.toml", "package.json", "Cargo.toml", "go.mod",
    "pom.xml", "build.gradle", ".copier-answers.yml"]

/-- `_is_project_root` from `discovery.py`: some marker exists directly
inside the directory. -/
def is_project_root (d : DirNode) : Bool :=
  project_markers.any (fun m => dirHasEntry d m)

/-- The default `exclude_patterns` of `discover_projects`. -/
def default_exclude_patterns : List String :=
  [".git", ".venv", "venv", "node_modules", "__pycache__", ".pytest_cache",
    ".mypy_cache", ".ruff_cache", "dist", "build", ".tox"]

/-- `_walk_directories` from `discovery.py`.  The Python `_walk(path,
current_depth)` stops when `current_depth > max_depth`; here the remaining
allowance is the explicit `fuel = max_depth + 1 - current_depth`.  Each
yielded directory is paired with its path below the walk root (the list of
directory names); an unreadable directory contributes nothing, an excluded
or hidden (dot-prefixed) child is pruned with its whole subtree, and every
child is yielded before its own subtree is walked. -/
def walkDirs (excl : List String) : Nat → List String → DirNode →
    List (List String × DirNode)
  | 0, _, _ => []
  | fuel + 1, path, d =>
    if d.readable then
      d.subdirs.flatMap (fun c =>
        if excl.contains c.name || hiddenName c.name then []
        else (path ++ [c.name], c) :: walkDirs excl fuel (path ++ [c.name]) c)
    else []

/-- The accumulation loop of `discover_projects`: skip directories already
seen, keep those that look like project roots, remembering their paths. -/
def discoverLoop : List (List String × DirNode) → List (List String) →
    List (List String × DirNode)
  | [], _ => []
  | pd :: rest, seen =>
    if seen.contains pd.1 then discoverLoop rest seen
    else if is_project_root pd.2 then pd :: discoverLoop rest (pd.1 :: seen)
    else discoverLoop rest seen

/-- `discover_projects` from `discovery.py`: walk from the root (the initial
call is `_walk(root_path, 0)`, hence fuel `max_depth + 1`), deduplicate, and
keep the project roots.  Each result is the discovered directory with its
path below the root; the Python code then builds a `Project` record per
result via `Project.from_path`. -/
def discover_projects (root : DirNode) (maxDepth : Nat)
    (excl : List String) : List (List String × DirNode) :=
  discoverLoop (walkDirs excl (maxDepth + 1) [] root) []

/-- A child directory survives the pruning rules of the walk: its name is
not excluded and not hidden. -/
def eligibleChild (excl : List String) (c : DirNode) : Bool :=
  !(excl.contains c.name || hiddenName c.name)

/-- Counterexample tree for C8: a child directory that is itself a project
root. -/
def demoSub : DirNode := .node "sub" ["pyproject.toml"] [] true

/-- Counterexample tree for C8: a root that is a project root and has one
project-root child. -/
def demoRoot : DirNode := .node "r" ["pyproject.toml"] [demoSub] true

/-- Demo process environment for the concurrent witnesses: every process
exits with status 0 and no output. -/
def demoEnv : Nat → ProcOutcome := fun _ => .completed 0 "" ""

/-- The per-task result function of a demo one-project concurrent batch. -/
def demoExec : Nat → CommandResult :=
  batchExec [projA] (.str "true") true (some 300) true demoEnv

/-- Demo scheduler state after task 0 acquires the single semaphore slot. -/
def demoMid : SchedState := ⟨0, [.running]⟩

/-- Demo scheduler state after task 0 completes. -/
def demoFinal : SchedState := ⟨1, [.done (demoExec 0)]⟩

/-- C3: every `BatchResult` built by `from_results` has `total` equal to the
length of its results list, `successful` equal to the number of successful
results, `failed` equal to the number of failed results, and hence
`successful + failed = total`. -/
theorem C3_from_results_counts (results : List CommandResult) :
    (BatchResult.from_results results).total
        = (BatchResult.from_results results).results.length ∧
    (BatchResult.from_results results).successful
        = (results.filter (fun r => r.success)).length ∧
    (BatchResult.from_results results).failed
        = (results.filter (fun r => !r.success)).length ∧
    (BatchResult.from_results results).successful
        + (BatchResult.from_results results).failed
        = (BatchResult.from_results results).total := by
  have hle : (results.filter (fun r => r.success)).length ≤ results.length :=
    List.length_filter_le _ _
  have hsplit : (results.filter (fun r => r.success)).length
      + (results.filter (fun r => !r.success)).length = results.length := by
    have h := List.length_eq_length_filter_add (l := results) (fun r => r.success)
    simpa using h.symm
  refine ⟨rfl, rfl, ?_, ?_⟩ <;> simp only [BatchResult.from_results] <;> omega

/-- C9: setting both `python_only` and `non_python_only` makes
`matches_filters` return `false` for every project and every other filter
configuration; the combination is not rejected, it just matches nothing. -/
theorem C9_conflicting_flags_match_nothing (p : Project)
    (copier_only git_only : Bool) (name_pattern has_file : Option String)
    (fnmatch : String → String → Bool) (fileCheck : String → FileCheck) :
    p.matches_filters true true copier_only git_only name_pattern has_file
      fnmatch fileCheck = false := by
  unfold Project.matches_filters
  cases h : p.is_python <;> simp [h]

/-- C10: `matches_filters` with `name_pattern` the empty string behaves
exactly as with `name_pattern = None`: the empty pattern is falsy in the
`if name_pattern:` guard, so it is ignored and never glob-matched. -/
theorem C10_empty_name_pattern_ignored (p : Project)
    (python_only non_python_only copier_only git_only : Bool)
    (has_file : Option String)
    (fnmatch : String → String → Bool) (fileCheck : String → FileCheck) :
    p.matches_filters python_only non_python_only copier_only git_only
        (some "") has_file fnmatch fileCheck
      = p.matches_filters python_only non_python_only copier_only git_only
        none has_file fnmatch fileCheck := by
  rfl

/-- C4: `run_command` and `_run_command_async` always return a
`CommandResult` for the given project, whatever the process does; on timeout
the result is a failure with sentinel exit code `-1` and an error message
stating the timeout duration; on any other execution-layer fault the result
is a failure with exit code `-1` and the stringified exception as error. -/
theorem C4_run_command_never_raises (project : Project) (command : Command)
    (shell : Bool) (t : Int) (timeout : Option Int) (capture_output : Bool)
    (msg : String) :
    (∀ proc, (run_command project command shell timeout capture_output
        proc).project = project) ∧
    (∀ proc, (run_command_async project command shell timeout capture_output
        proc).project = project) ∧
    (run_command project command shell (some t) capture_output
        .timedOut).success = false ∧
    (run_command project command shell (some t) capture_output
        .timedOut).exit_code = -1 ∧
    (run_command project command shell (some t) capture_output .timedOut).error
      = "Command timed out after " ++ toString t ++ " seconds" ∧
    (run_command project command shell timeout capture_output
        (.raised msg)).success = false ∧
    (run_command project command shell timeout capture_output
        (.raised msg)).exit_code = -1 ∧
    (run_command project command shell timeout capture_output
        (.raised msg)).error = msg ∧
    (run_command_async project command shell (some t) capture_output
        .timedOut).success = false ∧
    (run_command_async project command shell (some t) capture_output
        .timedOut).exit_code = -1 ∧
    (run_command_async project command shell (some t) capture_output
        .timedOut).error
      = "Command timed out after " ++ toString t ++ " seconds" ∧
    (run_command_async project command shell timeout capture_output
        (.raised msg)).success = false ∧
    (run_command_async project command shell timeout capture_output
        (.raised msg)).exit_code = -1 ∧
    (run_command_async project command shell timeout capture_output
        (.raised msg)).error = msg := by
  refine ⟨fun proc => ?_, fun proc => ?_, rfl, rfl, rfl, rfl, rfl, rfl,
    rfl, rfl, rfl, rfl, rfl, rfl⟩ <;>
    cases proc <;> rfl

/-- C5: when the process completes within the timeout, `run_command` reports
`success = (exit status == 0)` and the actual exit status; in particular exit
status 0 gives a success with `exit_code = 0` and exit status 7 gives a
failure with `exit_code = 7`. -/
theorem C5_run_command_completed (project : Project) (command : Command)
    (shell : Bool) (timeout : Option Int) (capture_output : Bool)
    (rc : Int) (out err : String) :
    (run_command project command shell timeout capture_output
        (.completed rc out err)).success = (rc == 0) ∧
    (run_command project command shell timeout capture_output
        (.completed rc out err)).exit_code = rc ∧
    (run_command project command shell timeout capture_output
        (.completed 0 out err)).success = true ∧
    (run_command project command shell timeout capture_output
        (.completed 0 out err)).exit_code = 0 ∧
    (run_command project command shell timeout capture_output
        (.completed 7 out err)).success = false ∧
    (run_command project command shell timeout capture_output
        (.completed 7 out err)).exit_code = 7 := by
  refine ⟨rfl, rfl, rfl, rfl, rfl, rfl⟩

/-- The sequential loop with `continue_on_error=True` runs the command once
per project in input order. -/
theorem run_batch_seq_continue_eq_map (command : Command) (shell : Bool)
    (timeout : Option Int) (capture_output : Bool)
    (env : Project → ProcOutcome) :
    ∀ projects, run_batch_seq command shell timeout capture_output true env
        projects
      = projects.map
          (fun p => run_command p command shell timeout capture_output (env p))
  | [] => rfl
  | p :: ps => by
    simp [run_batch_seq,
      run_batch_seq_continue_eq_map command shell timeout capture_output env ps]

/-- The sequential loop with `continue_on_error=False` produces exactly the
prefix of outcomes up to and including the first failure. -/
theorem run_batch_seq_stop_eq_upToFirstFailure (command : Command)
    (shell : Bool) (timeout : Option Int) (capture_output : Bool)
    (env : Project → ProcOutcome) :
    ∀ projects, run_batch_seq command shell timeout capture_output false env
        projects
      = upToFirstFailure (projects.map
          (fun p => run_command p command shell timeout capture_output (env p)))
  | [] => rfl
  | p :: ps => by
    simp only [run_batch_seq, List.map_cons, upToFirstFailure]
    cases h : (run_command p command shell timeout capture_output (env p)).success
    · simp [h]
    · simp [h, run_batch_seq_stop_eq_upToFirstFailure command shell timeout
        capture_output env ps]

/-- C6: in sequential mode `run_batch` runs the command once per project in
input order; with `continue_on_error=True` the batch holds one outcome per
input project, with `continue_on_error=False` it holds exactly the outcomes
up to and including the first failure. -/
theorem C6_run_batch_sequential (command : Command) (shell : Bool)
    (timeout : Option Int) (capture_output : Bool)
    (env : Project → ProcOutcome) (projects : List Project) :
    (run_batch command shell timeout capture_output true env projects).results
      = projects.map
          (fun p => run_command p command shell timeout capture_output (env p)) ∧
    (run_batch command shell timeout capture_output true env
        projects).results.length = projects.length ∧
    (run_batch command shell timeout capture_output false env projects).results
      = upToFirstFailure (projects.map
          (fun p => run_command p command shell timeout capture_output (env p))) := by
  refine ⟨?_, ?_, ?_⟩
  · exact run_batch_seq_continue_eq_map command shell timeout capture_output
      env projects
  · simp [run_batch, BatchResult.from_results,
      run_batch_seq_continue_eq_map command shell timeout capture_output
        env projects]
  · exact run_batch_seq_stop_eq_upToFirstFailure command shell timeout
      capture_output env projects

/-- C7 counterexample: with stop-on-first-failure = false (that is,
`continue_on_error=True`) and inputs [A(fails), B(succeeds)], the batch
contains BOTH outcomes, not only A's: the loop only breaks early when
`continue_on_error` is false. -/
theorem C7_counterexample :
    (run_command projA (.str "false") true (some 300) true
        (envAB projA)).success = false ∧
    (run_command projB (.str "false") true (some 300) true
        (envAB projB)).success = true ∧
    (run_batch (.str "false") true (some 300) true true envAB
        [projA, projB]).results.length = 2 ∧
    ((run_batch (.str "false") true (some 300) true true envAB
        [projA, projB]).results.getD 1 default).project = projB := by
  decide

/-- Counting running tasks commutes with a point update, stated without
natural subtraction. -/
theorem countP_set_add (p : TaskPhase → Bool) :
    ∀ (l : List TaskPhase) (i : Nat) (a b : TaskPhase), l[i]? = some b →
      (l.set i a).countP p + (if p b then 1 else 0)
        = l.countP p + (if p a then 1 else 0)
  | [], i, _, _, h => by simp at h
  | x :: xs, 0, a, b, h => by
    simp only [List.getElem?_cons_zero, Option.some.injEq] at h
    subst h
    simp only [List.set_cons_zero, List.countP_cons]
    omega
  | x :: xs, i + 1, a, b, h => by
    simp only [List.getElem?_cons_succ] at h
    have ih := countP_set_add p xs i a b h
    simp only [List.set_cons_succ, List.countP_cons]
    omega

/-- Invariant of `_run_batch_async` reachable states: free slots plus
in-flight processes always equal `max_workers`, the task list keeps its
length, and a completed task at index `i` holds exactly `exec i`. -/
theorem sched_invariant (exec : Nat → CommandResult) (N n : Nat)
    (s : SchedState) (h : Reach exec (initState N n) s) :
    s.sem + runningCount s.tasks = N ∧
    s.tasks.length = n ∧
    (∀ i r, s.tasks[i]? = some (.done r) → r = exec i) := by
  induction h with
  | refl =>
    refine ⟨?_, by simp [initState], ?_⟩
    · have hzero : (List.replicate n
          TaskPhase.pending).countP TaskPhase.isRunning = 0 := by
        rw [List.countP_eq_zero]
        intro t ht
        rw [List.eq_of_mem_replicate ht]
        simp [TaskPhase.isRunning]
      simp [initState, runningCount, hzero]
    · intro i r hi
      rcases Nat.lt_or_ge i n with hin | hin
      · rw [List.getElem?_eq_getElem (by simpa [initState] using hin)] at hi
        simp [initState, List.getElem_replicate] at hi
      · rw [List.getElem?_eq_none (by simpa [initState] using hin)] at hi
        exact absurd hi (by simp)
  | @tail b c hab hbc ih =>
    obtain ⟨hsem, hlen, hdone⟩ := ih
    obtain ⟨l, hstep⟩ := hbc
    cases hstep with
    | start i hp hsem0 =>
      have hcount := countP_set_add TaskPhase.isRunning b.tasks i .running
        .pending hp
      simp [TaskPhase.isRunning] at hcount
      refine ⟨?_, by simpa [List.length_set] using hlen, ?_⟩
      · simp only [runningCount] at hsem ⊢
        omega
      · intro j r hj
        rcases Decidable.em (i = j) with hij | hij
        · subst hij
          obtain ⟨hilt, -⟩ := List.getElem?_eq_some_iff.mp hp
          rw [List.getElem?_set_self hilt] at hj
          exact absurd hj (by simp)
        · rw [List.getElem?_set_ne hij] at hj
          exact hdone j r hj
    | finish i hr =>
      have hcount := countP_set_add TaskPhase.isRunning b.tasks i
        (.done (exec i)) .running hr
      simp [TaskPhase.isRunning] at hcount
      refine ⟨?_, by simpa [List.length_set] using hlen, ?_⟩
      · simp only [runningCount] at hsem ⊢
        omega
      · intro j r hj
        rcases Decidable.em (i = j) with hij | hij
        · subst hij
          obtain ⟨hilt, -⟩ := List.getElem?_eq_some_iff.mp hr
          rw [List.getElem?_set_self hilt] at hj
          simp at hj
          exact hj.symm
        · rw [List.getElem?_set_ne hij] at hj
          exact hdone j r hj

/-- Every directory yielded by the walk lies strictly below the directory
the walk starts from. -/
theorem walkDirs_path_extends (excl : List String) :
    ∀ (fuel : Nat) (path : List String) (d : DirNode),
      ∀ x ∈ walkDirs excl fuel path d, ∃ nm rest, x.1 = path ++ nm :: rest
  | 0, path, d => by simp [walkDirs]
  | fuel + 1, path, d => by
    intro x hx
    simp only [walkDirs] at hx
    by_cases hr : d.readable
    · rw [if_pos hr, List.mem_flatMap] at hx
      obtain ⟨c, hc, hx⟩ := hx
      by_cases he : excl.contains c.name || hiddenName c.name
      · rw [if_pos he] at hx
        exact absurd hx (by simp)
      · rw [if_neg he] at hx
        rcases List.mem_cons.mp hx with hx | hx
        · exact ⟨c.name, [], by rw [hx]⟩
        · obtain ⟨nm, rest, hrest⟩ := walkDirs_path_extends excl fuel
            (path ++ [c.name]) c x hx
          exact ⟨c.name, nm :: rest, by simp [hrest]⟩
    · rw [if_neg hr] at hx
      exact absurd hx (by simp)

/-- The accumulation loop only keeps elements of the walked list. -/
theorem discoverLoop_subset :
    ∀ (l : List (List String × DirNode)) (seen : List (List String)),
      ∀ x ∈ discoverLoop l seen, x ∈ l
  | [], _ => by simp [discoverLoop]
  | pd :: rest, seen => by
    intro x hx
    simp only [discoverLoop] at hx
    by_cases h1 : seen.contains pd.1
    · rw [if_pos h1] at hx
      exact List.mem_cons_of_mem _ (discoverLoop_subset rest seen x hx)
    · rw [if_neg h1] at hx
      by_cases h2 : is_project_root pd.2
      · rw [if_pos h2] at hx
        rcases List.mem_cons.mp hx with hx | hx
        · exact hx ▸ List.mem_cons_self _ _
        · exact List.mem_cons_of_mem _
            (discoverLoop_subset rest (pd.1 :: seen) x hx)
      · rw [if_neg h2] at hx
        exact List.mem_cons_of_mem _ (discoverLoop_subset rest seen x hx)

/-- Unfolding equation of the walk at exhausted depth. -/
theorem walkDirs_zero (excl : List String) (path : List String)
    (d : DirNode) : walkDirs excl 0 path d = [] := rfl

/-- Unfolding equation of the walk with remaining depth allowance. -/
theorem walkDirs_succ (excl : List String) (fuel : Nat) (path : List String)
    (d : DirNode) :
    walkDirs excl (fuel + 1) path d
      = if d.readable then
          d.subdirs.flatMap (fun c =>
            if excl.contains c.name || hiddenName c.name then []
            else (path ++ [c.name], c)
              :: walkDirs excl fuel (path ++ [c.name]) c)
        else [] := rfl

/-- The last level of the walk yields exactly the non-pruned children. -/
theorem walkChildren_fuel_zero (excl : List String) (path : List String) :
    ∀ cs : List DirNode,
      (cs.flatMap (fun c =>
        if excl.contains c.name || hiddenName c.name then []
        else (path ++ [c.name], c) :: walkDirs excl 0 (path ++ [c.name]) c))
      = (cs.filter (eligibleChild excl)).map (fun c => (path ++ [c.name], c))
  | [] => rfl
  | c :: cs => by
    rw [List.flatMap_cons, List.filter_cons,
      walkChildren_fuel_zero excl path cs]
    cases he : excl.contains c.name || hiddenName c.name with
    | false =>
      have helig : eligibleChild excl c = true := by
        simp only [eligibleChild, he]
        rfl
      rw [helig]
      simp [walkDirs_zero]
    | true =>
      have helig : eligibleChild excl c = false := by
        simp only [eligibleChild, he]
        rfl
      rw [helig]
      simp

/-- With `max_depth = 0` (fuel 1) the walk yields exactly the root's
non-pruned immediate children, in order. -/
theorem walkDirs_fuel_one (excl : List String) (root : DirNode)
    (hr : root.readable = true) :
    walkDirs excl 1 [] root
      = (root.subdirs.filter (eligibleChild excl)).map
          (fun c => ([c.name], c)) := by
  have h := walkDirs_succ excl 0 [] root
  rw [hr, if_pos rfl] at h
  rw [show (1 : Nat) = 0 + 1 from rfl, h,
    walkChildren_fuel_zero excl [] root.subdirs]
  simp

/-- A path not yet seen is not found by the membership test of the loop. -/
theorem contains_eq_false_of_not_mem {a : List String}
    {seen : List (List String)} (h : a ∉ seen) : seen.contains a = false := by
  rw [Bool.eq_false_iff]
  intro hc
  obtain ⟨b, hb, hab⟩ := List.contains_iff_exists_mem_beq.mp hc
  exact h (eq_of_beq hab ▸ hb)

/-- On a walked list with pairwise distinct paths none of which was seen
before, the accumulation loop is a plain filter by the project-root test. -/
theorem discoverLoop_nodup :
    ∀ (l : List (List String × DirNode)) (seen : List (List String)),
      (l.map Prod.fst).Nodup → (∀ x ∈ l, x.1 ∉ seen) →
      discoverLoop l seen = l.filter (fun pd => is_project_root pd.2)
  | [], _, _, _ => rfl
  | pd :: rest, seen, hnd, hseen => by
    have h1 : seen.contains pd.1 = false :=
      contains_eq_false_of_not_mem (hseen pd (List.mem_cons_self pd rest))
    simp only [List.map_cons, List.nodup_cons] at hnd
    obtain ⟨hhead, htail⟩ := hnd
    simp only [discoverLoop, h1, Bool.false_eq_true, if_false]
    by_cases h2 : is_project_root pd.2
    · rw [if_pos h2, List.filter_cons]
      simp only [h2, if_true]
      congr 1
      refine discoverLoop_nodup rest (pd.1 :: seen) htail ?_
      intro x hx hmem
      rcases List.mem_cons.mp hmem with hx1 | hx1
      · exact hhead (hx1 ▸ List.mem_map_of_mem Prod.fst hx)
      · exact hseen x (List.mem_cons_of_mem pd hx) hx1
    · rw [if_neg h2, List.filter_cons]
      simp only [h2, if_false, Bool.false_eq_true]
      refine discoverLoop_nodup rest seen htail ?_
      exact fun x hx => hseen x (List.mem_cons_of_mem pd hx)

/-- C8 counterexample: on a root directory that passes the project-root
marker test and has one project-root child, `discover_projects` with
`max_depth=0` returns the child, not the root: the walk never yields the
root directory itself, only strict descendants. -/
theorem C8_counterexample :
    is_project_root demoRoot = true ∧
    (discover_projects demoRoot 0 default_exclude_patterns).map Prod.fst
      = [["sub"]] ∧
    (discover_projects demoRoot 0 default_exclude_patterns).map Prod.fst
      ≠ [([] : List String)] := by
  refine ⟨by decide, by decide, by decide⟩

/-- C8 amended: the root directory itself is never returned by
`discover_projects` (every result path is nonempty, i.e. a strict
descendant), and with `max_depth=0` the results are exactly the root's
immediate non-excluded, non-hidden child directories that pass the
project-root marker test, in listing order. -/
theorem C8_amended_depth_zero_returns_children (root : DirNode)
    (maxDepth : Nat) (excl : List String) (hread : root.readable = true)
    (hnodup : (root.subdirs.map DirNode.name).Nodup) :
    (∀ x ∈ discover_projects root maxDepth excl, x.1 ≠ []) ∧
    discover_projects root 0 excl
      = (root.subdirs.filter
          (fun c => eligibleChild excl c && is_project_root c)).map
          (fun c => ([c.name], c)) := by
  constructor
  · intro x hx
    have hx' := discoverLoop_subset _ _ x hx
    obtain ⟨nm, rest, h⟩ := walkDirs_path_extends excl (maxDepth + 1) [] root
      x hx'
    simp [h]
  · show discoverLoop (walkDirs excl (0 + 1) [] root) [] = _
    rw [walkDirs_fuel_one excl root hread]
    rw [discoverLoop_nodup _ [] ?nd (by simp)]
    case nd =>
      rw [List.map_map]
      have h1 : ((root.subdirs.filter (eligibleChild excl)).map
          DirNode.name).Nodup :=
        ((List.filter_sublist root.subdirs).map DirNode.name).nodup hnodup
      have h2 := h1.map
        (f := fun nm : String => [nm])
        (fun a b hab => by simpa using hab)
      simpa [List.map_map] using h2
    rw [List.filter_map, List.filter_filter]
    congr 1
    apply List.filter_congr
    intro a ha
    simp [Function.comp, Bool.and_comm]

/-- Witness for the amended C8 at the concrete counterexample tree. -/
theorem C8_amended_witness :
    demoRoot.readable = true ∧
    (demoRoot.subdirs.map DirNode.name).Nodup ∧
    ((∀ x ∈ discover_projects demoRoot 0 default_exclude_patterns,
        x.1 ≠ []) ∧
      discover_projects demoRoot 0 default_exclude_patterns
        = (demoRoot.subdirs.filter
            (fun c => eligibleChild default_exclude_patterns c
              && is_project_root c)).map (fun c => ([c.name], c))) :=
  ⟨rfl, by decide,
    C8_amended_depth_zero_returns_children demoRoot 0
      default_exclude_patterns rfl (by decide)⟩

/-- C2: in every state reachable from the initial state of a concurrent
batch with `max_workers = N ≥ 1`, at most `N` child processes are in flight,
and a task can take a `start` step only while strictly fewer than `N` are in
flight (otherwise it stays suspended on the semaphore). -/
theorem C2_semaphore_bounds_concurrency (exec : Nat → CommandResult)
    (N n : Nat) (hN : 1 ≤ N) (s : SchedState)
    (hreach : Reach exec (initState N n) s) :
    runningCount s.tasks ≤ N ∧
    (∀ i s', SchedStep exec s (.start i) s' → runningCount s.tasks < N) := by
  obtain ⟨hsem, -, -⟩ := sched_invariant exec N n s hreach
  refine ⟨by omega, ?_⟩
  intro i s' hstep
  cases hstep
  omega

/-- Helper: `_run_command_async` always reports the project it was given. -/
theorem run_command_async_project (p : Project) (c : Command) (sh : Bool)
    (t : Option Int) (cap : Bool) (proc : ProcOutcome) :
    (run_command_async p c sh t cap proc).project = p := by
  cases proc <;> rfl

/-- `asyncio.gather` collation of a fully completed task list. -/
theorem gather_map_done (f : Nat → CommandResult) :
    ∀ l : List Nat, gather (l.map (fun i => TaskPhase.done (f i))) = l.map f
  | [] => rfl
  | i :: is => by
    simp only [List.map_cons, gather, List.filterMap_cons]
    exact congrArg _ (gather_map_done f is)

/-- C1: any completed concurrent batch run collates one result per input
project, in submission order: for every interleaving of starts and finishes
allowed by the semaphore, once all tasks are done the gathered list has the
length of the input list and its `i`-th result belongs to the `i`-th input
project. -/
theorem C1_parallel_results_in_submission_order
    (projects : List Project) (command : Command) (shell : Bool)
    (timeout : Option Int) (capture_output : Bool) (env : Nat → ProcOutcome)
    (N : Nat) (s : SchedState)
    (hreach : Reach
      (batchExec projects command shell timeout capture_output env)
      (initState N projects.length) s)
    (hdone : ∀ t ∈ s.tasks, t.isDone = true) :
    (gather s.tasks).length = projects.length ∧
    ((BatchResult.from_results (gather s.tasks)).results.length
      = projects.length) ∧
    (∀ i, i < projects.length →
      ((gather s.tasks).getD i default).project = projects.getD i default) := by
  set exec := batchExec projects command shell timeout capture_output env
    with hexec
  obtain ⟨-, hlen, hdoneinv⟩ :=
    sched_invariant exec N projects.length s hreach
  have htasks : s.tasks = (List.range projects.length).map
      (fun i => TaskPhase.done (exec i)) := by
    apply List.ext_getElem?
    intro j
    rcases Nat.lt_or_ge j projects.length with hj | hj
    · have hjlen : j < s.tasks.length := by omega
      have hd := hdone _ (List.getElem_mem hjlen)
      obtain ⟨r, hr⟩ : ∃ r, s.tasks[j] = TaskPhase.done r := by
        cases hu : s.tasks[j] with
        | done r => exact ⟨r, rfl⟩
        | pending => rw [hu] at hd; exact absurd hd (by simp [TaskPhase.isDone])
        | running => rw [hu] at hd; exact absurd hd (by simp [TaskPhase.isDone])
      have hj? : s.tasks[j]? = some (TaskPhase.done r) := by
        rw [List.getElem?_eq_getElem hjlen, hr]
      have hres := hdoneinv j r hj?
      subst hres
      rw [hj?, List.getElem?_map, List.getElem?_range hj]
      rfl
    · rw [List.getElem?_eq_none (by omega),
        List.getElem?_eq_none (by simpa using hj)]
  rw [htasks, gather_map_done]
  refine ⟨by simp, by simp [BatchResult.from_results], ?_⟩
  intro i hi
  have hget : ((List.range projects.length).map exec)[i]? = some (exec i) := by
    rw [List.getElem?_map, List.getElem?_range hi]
    rfl
  rw [List.getD_eq_getElem?_getD, hget]
  simp [hexec, batchExec, run_command_async_project]

/-- The demo batch can start its task from the initial state. -/
theorem demoStep1 : SchedStep demoExec (initState 1 1) (.start 0) demoMid :=
  SchedStep.start (initState 1 1) 0 (by decide) (by decide)

/-- The demo batch can then finish its running task. -/
theorem demoStep2 : SchedStep demoExec demoMid (.finish 0) demoFinal :=
  SchedStep.finish demoMid 0 (by decide)

/-- The mid state of the demo batch is reachable. -/
theorem demoReachMid : Reach demoExec (initState 1 1) demoMid :=
  Relation.ReflTransGen.single ⟨_, demoStep1⟩

/-- The final state of the demo batch is reachable. -/
theorem demoReachFinal : Reach demoExec (initState 1 1) demoFinal :=
  Relation.ReflTransGen.tail demoReachMid ⟨_, demoStep2⟩

/-- Witness for C1, at a one-project batch with `max_workers = 1` driven to
completion. -/
theorem C1_witness :
    Reach demoExec (initState 1 1) demoFinal ∧
    (∀ t ∈ demoFinal.tasks, t.isDone = true) ∧
    ((gather demoFinal.tasks).length = 1 ∧
      (BatchResult.from_results (gather demoFinal.tasks)).results.length = 1 ∧
      (∀ i, i < ([projA] : List Project).length →
        ((gather demoFinal.tasks).getD i default).project
          = ([projA] : List Project).getD i default)) :=
  ⟨demoReachFinal, by decide,
    C1_parallel_results_in_submission_order [projA] (.str "true") true
      (some 300) true demoEnv 1 demoFinal demoReachFinal (by decide)⟩

/-- Witness for C2, at a reachable state of the demo batch in which the
single slot is taken: the running count is at the bound and no further start
step is possible. -/
theorem C2_witness :
    (1 ≤ 1) ∧ Reach demoExec (initState 1 1) demoMid ∧
    (runningCount demoMid.tasks ≤ 1 ∧
      ∀ i s', SchedStep demoExec demoMid (.start i) s' →
        runningCount demoMid.tasks < 1) :=
  ⟨le_refl 1, demoReachMid,
    C2_semaphore_bounds_concurrency demoExec 1 1 (le_refl 1) demoMid
      demoReachMid⟩

/-- C7 amended: with stop-on-first-failure = true (`continue_on_error=False`)
and inputs [A(fails), B(succeeds)], the batch contains only A's outcome. -/
theorem C7_amended_stop_on_first_failure (A B : Project) (command : Command)
    (shell : Bool) (timeout : Option Int) (capture_output : Bool)
    (env : Project → ProcOutcome)
    (hA : (run_command A command shell timeout capture_output
        (env A)).success = false) :
    (run_batch command shell timeout capture_output false env [A, B]).results
      = [run_command A command shell timeout capture_output (env A)] := by
  simp [run_batch, BatchResult.from_results, run_batch_seq, hA]

/-- Witness for the amended C7 at the concrete inputs A (failing) and B
(succeeding). -/
theorem C7_amended_witness :
    (run_command projA (.str "false") true (some 300) true
        (envAB projA)).success = false ∧
    (run_batch (.str "false") true (some 300) true false envAB
        [projA, projB]).results
      = [run_command projA (.str "false") true (some 300) true (envAB projA)] :=
  ⟨by decide,
    C7_amended_stop_on_first_failure projA projB (.str "false") true (some 300)
      true envAB (by decide)⟩
